import Mathlib

/-!
Verification development for the srp_tasks task-management program.

The program is embedded shallowly: strings are lists of characters
(type Str below), files are character sequences, a possibly missing
file is an Option Str, and code that can raise a Python exception is
modelled with Except String, the error string naming the Python
exception class that the corresponding statement would raise.
Python program feedback printed to the console is not modelled, except
where an operation touches the file (the saved content is returned).
-/

namespace SrpTasks

/-- Python strings are modelled as lists of characters. -/
abbrev Str := List Char

/-- Characters treated as whitespace by the Python str.strip method
(ASCII range; the program only ever strips line endings and spaces). -/
def pyIsSpace (c : Char) : Bool :=
  c = ' ' || c = '\t' || c = '\n' || c = '\r' || c = '\x0b' || c = '\x0c'

/-- Python str.strip with no arguments: drop whitespace from both ends. -/
def pyStrip (s : Str) : Str :=
  ((s.dropWhile pyIsSpace).reverse.dropWhile pyIsSpace).reverse

/-- Python str.split with a one-character separator: line.split with a comma
in load_tasks.  An empty string splits to one empty field. -/
def splitOnChar (sep : Char) : Str → List Str
  | [] => [[]]
  | c :: rest =>
    if c = sep then [] :: splitOnChar sep rest
    else
      match splitOnChar sep rest with
      | [] => [[c]]
      | s :: ss => (c :: s) :: ss

/-- Python str.lower, on the ASCII letters the program compares against. -/
def pyLower (s : Str) : Str := s.map Char.toLower

/-- Decimal digit test, as used by the model of the Python int builtin. -/
def isDigit (c : Char) : Bool := 48 ≤ c.toNat && c.toNat ≤ 57

/-- A nonempty digit run in which single underscores may separate digits:
the digit grammar accepted by the Python int builtin. -/
def validDigitsU : Str → Bool
  | [] => false
  | [c] => isDigit c
  | c :: r :: rest =>
    isDigit c && (if r = '_' then validDigitsU rest else validDigitsU (r :: rest))

/-- Numeric value of a digit run, skipping grouping underscores. -/
def digitsVal (s : Str) : Nat :=
  s.foldl (fun a c => if c = '_' then a else a * 10 + (c.toNat - 48)) 0

/-- Model of the Python int builtin applied to a string: strips whitespace,
accepts an optional sign followed by digits (with optional underscore
grouping), and fails (ValueError) on anything else. -/
def pyInt (s : Str) : Option Int :=
  match pyStrip s with
  | [] => none
  | c :: cs =>
    if c = '+' then
      if validDigitsU cs then some (Int.ofNat (digitsVal cs)) else none
    else if c = '-' then
      if validDigitsU cs then some (-(Int.ofNat (digitsVal cs))) else none
    else
      if validDigitsU (c :: cs) then some (Int.ofNat (digitsVal (c :: cs))) else none

/-- Decimal digit character for a value below ten. -/
def digitChar (d : Nat) : Char :=
  match d with
  | 0 => '0' | 1 => '1' | 2 => '2' | 3 => '3' | 4 => '4'
  | 5 => '5' | 6 => '6' | 7 => '7' | 8 => '8' | _ => '9'

/-- Fuelled digit extraction: most significant digit first.  The fuel is
an upper bound on the argument, so it never runs out. -/
def natToStrAux : Nat → Nat → Str
  | 0, _ => []
  | fuel + 1, n =>
    if n = 0 then [] else natToStrAux fuel (n / 10) ++ [digitChar (n % 10)]

/-- Decimal rendering of a natural number, as Python str does. -/
def natToStr (n : Nat) : Str :=
  if n = 0 then ['0'] else natToStrAux (n + 1) n

/-- Decimal rendering of a Python int, as an f-string interpolation does. -/
def strOfInt (n : Int) : Str :=
  if n < 0 then '-' :: natToStr n.natAbs else natToStr n.natAbs

/-- F-string interpolation of a Python bool: True or False. -/
def strOfBool (b : Bool) : Str := if b then ("True".data) else ("False".data)

/-- F-string interpolation of an optional string: None when absent. -/
def strOfOptStr (o : Option Str) : Str :=
  match o with
  | none => ("None".data)
  | some s => s

/-- The Task entity of srp_tasks: id, description, optional due date,
completion flag and priority, exactly the attributes set by Task init. -/
structure Task where
  id : Int
  description : Str
  due_date : Option Str
  completed : Bool
  priority : Str
deriving DecidableEq, Repr

/-- The closed set of priorities accepted by Task init. -/
def valid_priorities : List Str := [("low".data), ("medium".data), ("high".data)]

/-- Task init from srp_tasks: stores id, description, due date and
completed unchanged; lowercases a truthy priority (an absent or empty
priority becomes medium), then coerces any value outside
valid_priorities to medium. -/
def mkTask (task_id : Int) (description : Str) (due_date : Option Str)
    (completed : Bool) (priority : Option Str) : Task :=
  let p :=
    match priority with
    | none => ("medium".data)
    | some s => if s = [] then ("medium".data) else pyLower s
  { id := task_id, description := description, due_date := due_date,
    completed := completed,
    priority := if p ∈ valid_priorities then p else ("medium".data) }

/-- The line FileTaskStorage.save_tasks writes for one task:
id, description, due date, completed and priority joined by commas. -/
def taskLine (t : Task) : Str :=
  strOfInt t.id ++ ',' :: (t.description ++ ',' :: (strOfOptStr t.due_date ++
    ',' :: (strOfBool t.completed ++ ',' :: t.priority)))

/-- FileTaskStorage.save_tasks: the file content written for a task list,
one newline-terminated line per task, in order. -/
def save_tasks : List Task → Str
  | [] => []
  | t :: ts => taskLine t ++ '\n' :: save_tasks ts

/-- One iteration of the load_tasks loop on a single line: strip, split on
commas, skip the line when it has fewer than four fields, otherwise parse
the id with the int builtin (a failure raises ValueError), restore the due
date (the literal text None becomes absent), read completed as comparison
with the literal text True, default a missing fifth field to medium, and
construct the Task through Task init. -/
def loadLine (line : Str) : Except String (Option Task) :=
  match splitOnChar ',' (pyStrip line) with
  | p0 :: p1 :: p2 :: p3 :: rest =>
    match pyInt p0 with
    | none => .error ("ValueError")
    | some task_id =>
      let due_date := if p2 = ("None".data) then none else some p2
      let completed := decide (p3 = ("True".data))
      let priority :=
        match rest with
        | [] => ("medium".data)
        | p4 :: _ => p4
      .ok (some (mkTask task_id p1 due_date completed (some priority)))
  | _ => .ok none

/-- The load_tasks loop over the lines of the file: tasks accumulate in
file order; an uncaught ValueError aborts the whole load. -/
def loadLines : List Str → Except String (List Task)
  | [] => .ok []
  | l :: ls =>
    match loadLine l with
    | .error e => .error e
    | .ok none => loadLines ls
    | .ok (some t) =>
      match loadLines ls with
      | .error e => .error e
      | .ok ts => .ok (t :: ts)

/-- Universal-newline translation performed by reading a file in text
mode: a CRLF pair and a lone CR are both translated to LF before the
caller sees the content, so line iteration breaks at LF, CRLF and CR. -/
def univNewlines : Str → Str
  | [] => []
  | [c] => if c = '\r' then ['\n'] else [c]
  | c :: d :: rest =>
    if c = '\r' then
      if d = '\n' then '\n' :: univNewlines rest
      else '\n' :: univNewlines (d :: rest)
    else c :: univNewlines (d :: rest)

/-- FileTaskStorage.load_tasks: a missing file (FileNotFoundError is
caught) yields the empty list; otherwise the file content is read line
by line in text mode, with universal-newline translation. -/
def load_tasks (file : Option Str) : Except String (List Task) :=
  match file with
  | none => .ok []
  | some content => loadLines (splitOnChar '\n' (univNewlines content))

/-- The task extracted from a line by a successful load, if any. -/
def lineTask (l : Str) : Option Task :=
  match loadLine l with
  | .ok o => o
  | .error _ => none

/-- Python max over a list of ints (the program only applies it to
nonempty lists; the empty case is unreachable there). -/
def pyMax : List Int → Int
  | [] => 0
  | x :: xs => xs.foldl max x

/-- TaskManager state: the in-memory task collection and the next id.
The storage collaborator is passed explicitly as the file argument of
the operations below. -/
structure TaskManager where
  tasks : List Task
  next_id : Int
deriving DecidableEq, Repr

/-- TaskManager init: load all tasks from storage; next id is one more
than the maximum of the loaded ids and zero when tasks were loaded, and
one otherwise. -/
def TaskManager.init (file : Option Str) : Except String TaskManager :=
  match load_tasks file with
  | .error e => .error e
  | .ok ts =>
    .ok { tasks := ts,
          next_id := if ts = [] then 1 else pyMax (ts.map (fun t => t.id) ++ [0]) + 1 }

/-- TaskManager.add_task: build a Task with the current next id, append
it, increment next id, save the whole collection, then format the
confirmation message, whose priority.upper() call raises AttributeError
when priority is None; the new task is returned otherwise.  The result
is the new manager state, the saved file content, and the outcome. -/
def TaskManager.add_task (m : TaskManager) (description : Str)
    (due_date : Option Str) (priority : Option Str) :
    TaskManager × Str × Except String Task :=
  let task := mkTask m.next_id description due_date false priority
  let m2 : TaskManager := { tasks := m.tasks ++ [task], next_id := m.next_id + 1 }
  let res : Except String Task :=
    match priority with
    | none => .error ("AttributeError")
    | some _ => .ok task
  (m2, save_tasks m2.tasks, res)

/-- The linear scan of get_task_by_id: first task with the given id. -/
def findById : List Task → Int → Option Task
  | [], _ => none
  | t :: ts, i => if t.id = i then some t else findById ts i

/-- TaskManager.get_task_by_id. -/
def TaskManager.get_task_by_id (m : TaskManager) (task_id : Int) : Option Task :=
  findById m.tasks task_id

/-- Marking the found task completed mutates the task object in place,
which in list terms updates the first task with the given id. -/
def markFirst : List Task → Int → List Task
  | [], _ => []
  | t :: ts, i =>
    if t.id = i then { t with completed := true } :: ts else t :: markFirst ts i

/-- TaskManager.mark_task_completed: on a found id, mark the task and
save the collection, returning True; otherwise return False.  The middle
component is the file content written, when a save happened. -/
def TaskManager.mark_task_completed (m : TaskManager) (task_id : Int) :
    TaskManager × Option Str × Bool :=
  match m.get_task_by_id task_id with
  | some _ =>
    let m2 : TaskManager := { m with tasks := markFirst m.tasks task_id }
    (m2, some (save_tasks m2.tasks), true)
  | none => (m, none, false)

/-- The priority weights used by the list_tasks sort key:
high three, medium two, low one, anything else two. -/
def priority_order (p : Str) : Int :=
  if p = ("high".data) then 3
  else if p = ("medium".data) then 2
  else if p = ("low".data) then 1
  else 2

/-- The list_tasks sort key: completion status first (False before True),
then negated priority weight. -/
def sortKey (t : Task) : Bool × Int := (t.completed, -priority_order t.priority)

/-- Non-strict lexicographic comparison of sort keys, the order realised
by the Python sorted builtin on these key tuples. -/
def keyLE (a b : Bool × Int) : Bool :=
  (a.1 == b.1 && decide (a.2 ≤ b.2)) || (!a.1 && b.1)

/-- Stable insertion of a task into an already sorted task list: the
inserted task goes before the first task whose key is not below it, so a
task earlier in the input stays before later tasks with an equal key. -/
def insertTask (t : Task) : List Task → List Task
  | [] => [t]
  | u :: us =>
    if keyLE (sortKey t) (sortKey u) then t :: u :: us else u :: insertTask t us

/-- Stable sort by the list_tasks key.  The Python sorted builtin is a
stable sort, and a stable sort by a fixed key is extensionally unique,
so stable insertion sort gives the same output list. -/
def sortTasks : List Task → List Task
  | [] => []
  | t :: ts => insertTask t (sortTasks ts)

/-- TaskManager.list_tasks displays the tasks in this order. -/
def TaskManager.list_tasks (m : TaskManager) : List Task := sortTasks m.tasks

/-- TaskManager states reachable by construction from some backing store
followed by any sequence of add_task and mark_task_completed calls.  A
state mutated by an add_task call whose confirmation message later
raised is reachable: the mutation and the save precede the raise. -/
inductive Reachable : TaskManager → Prop
  | init (file : Option Str) (m : TaskManager) :
      TaskManager.init file = .ok m → Reachable m
  | add (m : TaskManager) (d : Str) (dd : Option Str) (p : Option Str) :
      Reachable m → Reachable (m.add_task d dd p).1
  | mark (m : TaskManager) (i : Int) :
      Reachable m → Reachable (m.mark_task_completed i).1

/-- Reachable TaskManager states whose construction loaded a collection
with pairwise distinct ids: for instance any state built over a missing
store, an empty store, or a store previously written by save_tasks. -/
inductive ReachableU : TaskManager → Prop
  | init (file : Option Str) (m : TaskManager) :
      TaskManager.init file = .ok m →
      List.Pairwise (fun a b => a.id ≠ b.id) m.tasks → ReachableU m
  | add (m : TaskManager) (d : Str) (dd : Option Str) (p : Option Str) :
      ReachableU m → ReachableU (m.add_task d dd p).1
  | mark (m : TaskManager) (i : Int) :
      ReachableU m → ReachableU (m.mark_task_completed i).1

/-!  Helper lemmas about the embedded operations. -/

theorem digitChar_facts :
    ∀ d : Nat, d < 10 →
      isDigit (digitChar d) = true ∧ (digitChar d).toNat - 48 = d ∧ digitChar d ≠ '_' := by
  decide

theorem isDigit_bounds {c : Char} (h : isDigit c = true) :
    48 ≤ c.toNat ∧ c.toNat ≤ 57 := by
  simpa [isDigit] using h

theorem isDigit_not_space {c : Char} (h : isDigit c = true) : pyIsSpace c = false := by
  cases hps : pyIsSpace c with
  | false => rfl
  | true =>
    exfalso
    have hb := isDigit_bounds h
    simp only [pyIsSpace, Bool.or_eq_true, decide_eq_true_eq] at hps
    rcases hps with ((((h1 | h1) | h1) | h1) | h1) | h1 <;> subst h1 <;>
      exact absurd hb (by decide)

theorem isDigit_ne_comma {c : Char} (h : isDigit c = true) : c ≠ ',' := by
  intro e; subst e; exact absurd h (by decide)

theorem isDigit_ne_newline {c : Char} (h : isDigit c = true) : c ≠ '\n' := by
  intro e; subst e; exact absurd h (by decide)

theorem isDigit_ne_cr {c : Char} (h : isDigit c = true) : c ≠ '\r' := by
  intro e; subst e; exact absurd h (by decide)

theorem isDigit_ne_plus {c : Char} (h : isDigit c = true) : c ≠ '+' := by
  intro e; subst e; exact absurd h (by decide)

theorem isDigit_ne_minus {c : Char} (h : isDigit c = true) : c ≠ '-' := by
  intro e; subst e; exact absurd h (by decide)

theorem natToStrAux_eq : ∀ (fuel n : Nat), n < fuel →
    natToStrAux fuel n = (Nat.digits 10 n).reverse.map digitChar
  | 0, _, h => absurd h (by omega)
  | fuel + 1, n, h => by
    by_cases h0 : n = 0
    · subst h0; simp [natToStrAux]
    · have hd : n / 10 < n := Nat.div_lt_self (by omega) (by omega)
      rw [natToStrAux, if_neg h0, natToStrAux_eq fuel (n / 10) (by omega),
        Nat.digits_def' (by norm_num : (1:ℕ) < 10) (by omega : 0 < n),
        List.reverse_cons, List.map_append]
      simp

theorem natToStr_eq (n : Nat) :
    natToStr n = if n = 0 then ['0'] else (Nat.digits 10 n).reverse.map digitChar := by
  unfold natToStr
  by_cases h : n = 0
  · simp [h]
  · rw [if_neg h, if_neg h, natToStrAux_eq (n + 1) n (by omega)]

theorem natToStr_ne_nil (n : Nat) : natToStr n ≠ [] := by
  rw [natToStr_eq]
  by_cases h : n = 0
  · simp [h]
  · simp [h, Nat.digits_ne_nil_iff_ne_zero]

theorem mem_natToStr_isDigit {n : Nat} {c : Char} (h : c ∈ natToStr n) :
    isDigit c = true := by
  rw [natToStr_eq] at h
  by_cases h0 : n = 0
  · simp [h0] at h; subst h; decide
  · rw [if_neg h0] at h
    obtain ⟨d, hd, rfl⟩ := List.mem_map.mp h
    have hdlt : d < 10 :=
      Nat.digits_lt_base (by norm_num) (List.mem_reverse.mp hd)
    exact (digitChar_facts d hdlt).1

theorem dropWhile_eq_self_of_forall {p : Char → Bool} (s : Str)
    (h : ∀ c ∈ s, p c = false) : s.dropWhile p = s := by
  cases s with
  | nil => rfl
  | cons c cs => rw [List.dropWhile_cons_of_neg (by simp [h c (by simp)])]

theorem pyStrip_eq_self_of_forall (s : Str)
    (h : ∀ c ∈ s, pyIsSpace c = false) : pyStrip s = s := by
  unfold pyStrip
  rw [dropWhile_eq_self_of_forall s h,
    dropWhile_eq_self_of_forall _ (fun c hc => h c (List.mem_reverse.mp hc)),
    List.reverse_reverse]

theorem pyStrip_eq_self_of_ends (s : Str)
    (h1 : ∀ c, s.head? = some c → pyIsSpace c = false)
    (h2 : ∀ c, s.getLast? = some c → pyIsSpace c = false) : pyStrip s = s := by
  unfold pyStrip
  have e1 : s.dropWhile pyIsSpace = s := by
    cases s with
    | nil => rfl
    | cons c cs => rw [List.dropWhile_cons_of_neg (by simp [h1 c rfl])]
  rw [e1]
  have e2 : s.reverse.dropWhile pyIsSpace = s.reverse := by
    cases hr : s.reverse with
    | nil => rfl
    | cons c cs =>
      have hc : s.getLast? = some c := by
        rw [List.getLast?_eq_head?_reverse, hr]; rfl
      rw [List.dropWhile_cons_of_neg (by simp [h2 c hc])]
  rw [e2, List.reverse_reverse]

theorem splitOnChar_append (sep : Char) (a b : Str) (h : sep ∉ a) :
    splitOnChar sep (a ++ sep :: b) = a :: splitOnChar sep b := by
  induction a with
  | nil => simp [splitOnChar]
  | cons c a ih =>
    have hc : c ≠ sep := fun e => h (by simp [e])
    have ha : sep ∉ a := fun e => h (by simp [e])
    rw [List.cons_append]
    show splitOnChar sep (c :: (a ++ sep :: b)) = _
    rw [splitOnChar, if_neg hc, ih ha]

theorem splitOnChar_of_not_mem (sep : Char) (a : Str) (h : sep ∉ a) :
    splitOnChar sep a = [a] := by
  induction a with
  | nil => rfl
  | cons c a ih =>
    have hc : c ≠ sep := fun e => h (by simp [e])
    have ha : sep ∉ a := fun e => h (by simp [e])
    rw [splitOnChar, if_neg hc, ih ha]

theorem valid_of_digits :
    ∀ s : Str, s ≠ [] → (∀ c ∈ s, isDigit c = true) → validDigitsU s = true
  | [], hne, _ => absurd rfl hne
  | [c], _, h => by simp [validDigitsU, h c (by simp)]
  | c :: r :: rest, _, h => by
    have hc := h c (by simp)
    have hr := h r (by simp)
    have hu : r ≠ '_' := by intro e; subst e; exact absurd hr (by decide)
    rw [validDigitsU, if_neg hu, hc,
      valid_of_digits (r :: rest) (by simp) (fun x hx => h x (by simp [hx]))]
    rfl

theorem foldl_digits_aux :
    ∀ ds : List Nat, (∀ d ∈ ds, d < 10) → ∀ a : Nat,
      List.foldl (fun x c => if c = '_' then x else x * 10 + (c.toNat - 48)) a
        ((ds.reverse).map digitChar) = a * 10 ^ ds.length + Nat.ofDigits 10 ds := by
  intro ds
  induction ds with
  | nil => intro _ a; simp [Nat.ofDigits]
  | cons d ds ih =>
    intro h a
    have hd := h d (by simp)
    have h1 : digitChar d ≠ '_' := (digitChar_facts d hd).2.2
    have h2 : (digitChar d).toNat - 48 = d := (digitChar_facts d hd).2.1
    rw [List.reverse_cons, List.map_append, List.foldl_append,
      ih (fun x hx => h x (by simp [hx])) a]
    simp only [List.map_cons, List.map_nil, List.foldl_cons, List.foldl_nil,
      if_neg h1, h2, Nat.ofDigits_cons, List.length_cons]
    ring

theorem digitsVal_natToStr (n : Nat) (h : n ≠ 0) : digitsVal (natToStr n) = n := by
  rw [natToStr_eq, if_neg h]
  unfold digitsVal
  rw [foldl_digits_aux (Nat.digits 10 n)
      (fun d hd => Nat.digits_lt_base (by norm_num) hd) 0]
  simp [Nat.ofDigits_digits]

theorem strOfInt_pos (n : Int) (h : 1 ≤ n) : strOfInt n = natToStr n.natAbs := by
  unfold strOfInt
  rw [if_neg (by omega)]

theorem pyInt_natToStr (n : Nat) (h : n ≠ 0) :
    pyInt (natToStr n) = some (Int.ofNat n) := by
  unfold pyInt
  rw [pyStrip_eq_self_of_forall _ (fun c hc => isDigit_not_space (mem_natToStr_isDigit hc))]
  obtain ⟨c, cs, he⟩ := List.exists_cons_of_ne_nil (natToStr_ne_nil n)
  have hcd : isDigit c = true := mem_natToStr_isDigit (by rw [he]; simp)
  have hall : ∀ x ∈ c :: cs, isDigit x = true := by
    intro x hx; exact mem_natToStr_isDigit (by rw [he]; exact hx)
  rw [he]
  show (if c = '+' then (if validDigitsU cs then some (Int.ofNat (digitsVal cs)) else none)
    else if c = '-' then (if validDigitsU cs then some (-(Int.ofNat (digitsVal cs))) else none)
    else if validDigitsU (c :: cs) then some (Int.ofNat (digitsVal (c :: cs))) else none)
      = some (Int.ofNat n)
  rw [if_neg (isDigit_ne_plus hcd), if_neg (isDigit_ne_minus hcd),
    if_pos (valid_of_digits (c :: cs) (by simp) hall), ← he, digitsVal_natToStr n h]

theorem pyInt_strOfInt_pos (n : Int) (h : 1 ≤ n) : pyInt (strOfInt n) = some n := by
  rw [strOfInt_pos n h, pyInt_natToStr n.natAbs (by omega)]
  simp only [Int.ofNat_eq_natCast]
  exact congrArg some (Int.natAbs_of_nonneg (by omega))

theorem strOfInt_no_comma (n : Int) (h : 1 ≤ n) : ',' ∉ strOfInt n := by
  rw [strOfInt_pos n h]
  intro hm
  exact isDigit_ne_comma (mem_natToStr_isDigit hm) rfl

theorem strOfInt_no_newline (n : Int) (h : 1 ≤ n) : '\n' ∉ strOfInt n := by
  rw [strOfInt_pos n h]
  intro hm
  exact isDigit_ne_newline (mem_natToStr_isDigit hm) rfl

theorem strOfInt_no_cr (n : Int) (h : 1 ≤ n) : '\r' ∉ strOfInt n := by
  rw [strOfInt_pos n h]
  intro hm
  exact isDigit_ne_cr (mem_natToStr_isDigit hm) rfl

theorem univNewlines_no_cr : ∀ s : Str, '\r' ∉ s → univNewlines s = s
  | [], _ => rfl
  | [c], h => by
    have hc : c ≠ '\r' := fun e => h (by simp [e])
    rw [univNewlines, if_neg hc]
  | c :: d :: rest, h => by
    have hc : c ≠ '\r' := fun e => h (by simp [e])
    have h2 : '\r' ∉ d :: rest := fun hm => h (by simp at hm; simp [hm])
    rw [univNewlines, if_neg hc, univNewlines_no_cr (d :: rest) h2]

theorem priority_cases {t : Task} (hp : t.priority ∈ valid_priorities) :
    t.priority = ("low".data) ∨ t.priority = ("medium".data) ∨ t.priority = ("high".data) := by
  simpa [valid_priorities] using hp

theorem taskLine_split (t : Task) (hid : (1:Int) ≤ t.id) (hdesc : ',' ∉ t.description)
    (hdue : ∀ d, t.due_date = some d → ',' ∉ d) (hp : t.priority ∈ valid_priorities) :
    splitOnChar ',' (taskLine t) =
      [strOfInt t.id, t.description, strOfOptStr t.due_date,
        strOfBool t.completed, t.priority] := by
  have h3 : ',' ∉ strOfOptStr t.due_date := by
    cases hdd : t.due_date with
    | none => decide
    | some d => exact hdue d hdd
  have h4 : ',' ∉ strOfBool t.completed := by cases t.completed <;> decide
  have h5 : ',' ∉ t.priority := by
    rcases priority_cases hp with h | h | h <;> rw [h] <;> decide
  unfold taskLine
  rw [splitOnChar_append _ _ _ (strOfInt_no_comma t.id hid),
    splitOnChar_append _ _ _ hdesc,
    splitOnChar_append _ _ _ h3,
    splitOnChar_append _ _ _ h4,
    splitOnChar_of_not_mem _ _ h5]

theorem taskLine_strip (t : Task) (hid : (1:Int) ≤ t.id)
    (hp : t.priority ∈ valid_priorities) : pyStrip (taskLine t) = taskLine t := by
  apply pyStrip_eq_self_of_ends
  · intro c hc
    unfold taskLine at hc
    rw [strOfInt_pos t.id hid] at hc
    obtain ⟨c0, cs, he⟩ := List.exists_cons_of_ne_nil (natToStr_ne_nil t.id.natAbs)
    rw [he, List.cons_append] at hc
    have h2 : some c0 = some c := hc
    obtain rfl := Option.some.inj h2
    exact isDigit_not_space (mem_natToStr_isDigit (by rw [he]; simp))
  · intro c hc
    unfold taskLine at hc
    rw [List.getLast?_append_cons, ← List.cons_append, List.getLast?_append_cons,
      ← List.cons_append, List.getLast?_append_cons, ← List.cons_append,
      List.getLast?_append_cons] at hc
    rcases priority_cases hp with h | h | h
    · rw [h] at hc
      obtain rfl := Option.some.inj (hc : some 'w' = some c)
      decide
    · rw [h] at hc
      obtain rfl := Option.some.inj (hc : some 'm' = some c)
      decide
    · rw [h] at hc
      obtain rfl := Option.some.inj (hc : some 'h' = some c)
      decide

theorem taskLine_no_newline (t : Task) (hid : (1:Int) ≤ t.id)
    (hdesc : '\n' ∉ t.description)
    (hdue : ∀ d, t.due_date = some d → '\n' ∉ d)
    (hp : t.priority ∈ valid_priorities) : '\n' ∉ taskLine t := by
  have h3 : '\n' ∉ strOfOptStr t.due_date := by
    cases hdd : t.due_date with
    | none => decide
    | some d => exact hdue d hdd
  have h4 : '\n' ∉ strOfBool t.completed := by cases t.completed <;> decide
  have h5 : '\n' ∉ t.priority := by
    rcases priority_cases hp with h | h | h <;> rw [h] <;> decide
  intro hm
  unfold taskLine at hm
  rcases List.mem_append.mp hm with h | h
  · exact strOfInt_no_newline t.id hid h
  rcases List.mem_cons.mp h with h | h
  · exact absurd h (by decide)
  rcases List.mem_append.mp h with h | h
  · exact hdesc h
  rcases List.mem_cons.mp h with h | h
  · exact absurd h (by decide)
  rcases List.mem_append.mp h with h | h
  · exact h3 h
  rcases List.mem_cons.mp h with h | h
  · exact absurd h (by decide)
  rcases List.mem_append.mp h with h | h
  · exact h4 h
  rcases List.mem_cons.mp h with h | h
  · exact absurd h (by decide)
  · exact h5 h

theorem taskLine_no_cr (t : Task) (hid : (1:Int) ≤ t.id)
    (hdesc : '\r' ∉ t.description)
    (hdue : ∀ d, t.due_date = some d → '\r' ∉ d)
    (hp : t.priority ∈ valid_priorities) : '\r' ∉ taskLine t := by
  have h3 : '\r' ∉ strOfOptStr t.due_date := by
    cases hdd : t.due_date with
    | none => decide
    | some d => exact hdue d hdd
  have h4 : '\r' ∉ strOfBool t.completed := by cases t.completed <;> decide
  have h5 : '\r' ∉ t.priority := by
    rcases priority_cases hp with h | h | h <;> rw [h] <;> decide
  intro hm
  unfold taskLine at hm
  rcases List.mem_append.mp hm with h | h
  · exact strOfInt_no_cr t.id hid h
  rcases List.mem_cons.mp h with h | h
  · exact absurd h (by decide)
  rcases List.mem_append.mp h with h | h
  · exact hdesc h
  rcases List.mem_cons.mp h with h | h
  · exact absurd h (by decide)
  rcases List.mem_append.mp h with h | h
  · exact h3 h
  rcases List.mem_cons.mp h with h | h
  · exact absurd h (by decide)
  rcases List.mem_append.mp h with h | h
  · exact h4 h
  rcases List.mem_cons.mp h with h | h
  · exact absurd h (by decide)
  · exact h5 h

theorem save_tasks_no_cr (ts : List Task) (h : ∀ t ∈ ts, '\r' ∉ taskLine t) :
    '\r' ∉ save_tasks ts := by
  induction ts with
  | nil => simp [save_tasks]
  | cons t ts ih =>
    show '\r' ∉ taskLine t ++ '\n' :: save_tasks ts
    intro hm
    rcases List.mem_append.mp hm with h1 | h1
    · exact h t (by simp) h1
    rcases List.mem_cons.mp h1 with h2 | h2
    · exact absurd h2 (by decide)
    · exact ih (fun u hu => h u (by simp [hu])) h2

theorem loadLine_five (line a b c d e : Str)
    (hs : splitOnChar ',' (pyStrip line) = [a, b, c, d, e]) :
    loadLine line =
      match pyInt a with
      | none => Except.error ("ValueError")
      | some i =>
        Except.ok (some (mkTask i b (if c = ("None".data) then none else some c)
          (decide (d = ("True".data))) (some e))) := by
  unfold loadLine
  rw [hs]

theorem loadLine_four (line a b c d : Str)
    (hs : splitOnChar ',' (pyStrip line) = [a, b, c, d]) :
    loadLine line =
      match pyInt a with
      | none => Except.error ("ValueError")
      | some i =>
        Except.ok (some (mkTask i b (if c = ("None".data) then none else some c)
          (decide (d = ("True".data))) (some ("medium".data)))) := by
  unfold loadLine
  rw [hs]

theorem loadLine_taskLine (t : Task) (hid : (1:Int) ≤ t.id)
    (hdesc : ',' ∉ t.description)
    (hdue : ∀ d, t.due_date = some d → ',' ∉ d ∧ d ≠ ("None".data))
    (hp : t.priority ∈ valid_priorities) :
    loadLine (taskLine t) = Except.ok (some t) := by
  rw [loadLine_five (taskLine t) _ _ _ _ _
    (by rw [taskLine_strip t hid hp,
      taskLine_split t hid hdesc (fun d hd => (hdue d hd).1) hp]),
    pyInt_strOfInt_pos t.id hid]
  show Except.ok (some (mkTask t.id t.description
    (if strOfOptStr t.due_date = ("None".data) then none else some (strOfOptStr t.due_date))
    (decide (strOfBool t.completed = ("True".data))) (some t.priority))) = Except.ok (some t)
  have hdd : (if strOfOptStr t.due_date = ("None".data) then none
      else some (strOfOptStr t.due_date)) = t.due_date := by
    cases hcase : t.due_date with
    | none => simp [strOfOptStr]
    | some d => simp [strOfOptStr, (hdue d hcase).2]
  have hcc : decide (strOfBool t.completed = ("True".data)) = t.completed := by
    cases t.completed <;> rfl
  have hpp : mkTask t.id t.description t.due_date t.completed (some t.priority) = t := by
    cases t with
    | mk i de du co pr =>
      rcases priority_cases hp with h | h | h <;> (simp only at h; subst h; rfl)
  rw [hdd, hcc, hpp]

theorem splitLines_save (ts : List Task) (h : ∀ t ∈ ts, '\n' ∉ taskLine t) :
    splitOnChar '\n' (save_tasks ts) = ts.map taskLine ++ [[]] := by
  induction ts with
  | nil => rfl
  | cons t ts ih =>
    show splitOnChar '\n' (taskLine t ++ '\n' :: save_tasks ts) = _
    rw [splitOnChar_append _ _ _ (h t (by simp)),
      ih (fun u hu => h u (by simp [hu]))]
    rfl

theorem loadLines_taskLines (ts : List Task)
    (h : ∀ t ∈ ts, (1:Int) ≤ t.id ∧ ',' ∉ t.description ∧
      (∀ d, t.due_date = some d → ',' ∉ d ∧ d ≠ ("None".data)) ∧
      t.priority ∈ valid_priorities) :
    loadLines (ts.map taskLine ++ [[]]) = Except.ok ts := by
  induction ts with
  | nil => rfl
  | cons t ts ih =>
    obtain ⟨h1, h2, h3, h4⟩ := h t (by simp)
    show loadLines (taskLine t :: (ts.map taskLine ++ [[]])) = _
    rw [loadLines, loadLine_taskLine t h1 h2 h3 h4,
      ih (fun u hu => h u (by simp [hu]))]

theorem keyLE_refl (a : Bool × Int) : keyLE a a = true := by
  simp [keyLE]

theorem keyLE_total (a b : Bool × Int) : keyLE a b = true ∨ keyLE b a = true := by
  rcases a with ⟨x, i⟩
  rcases b with ⟨y, j⟩
  cases x <;> cases y <;> simp [keyLE] <;> omega

theorem keyLE_trans (a b c : Bool × Int)
    (h1 : keyLE a b = true) (h2 : keyLE b c = true) : keyLE a c = true := by
  rcases a with ⟨x, i⟩
  rcases b with ⟨y, j⟩
  rcases c with ⟨z, k⟩
  cases x <;> cases y <;> cases z <;> simp [keyLE] at h1 h2 ⊢ <;> omega

theorem keyLE_of_not (a b : Bool × Int) (h : ¬ keyLE a b = true) : keyLE b a = true :=
  (keyLE_total a b).resolve_left h

theorem mem_insertTask {t u : Task} {l : List Task} (h : u ∈ insertTask t l) :
    u = t ∨ u ∈ l := by
  induction l with
  | nil =>
    simp [insertTask] at h
    exact Or.inl h
  | cons v vs ih =>
    rw [insertTask] at h
    by_cases hc : keyLE (sortKey t) (sortKey v) = true
    · rw [if_pos hc] at h
      rcases List.mem_cons.mp h with h | h
      · exact Or.inl h
      · exact Or.inr h
    · rw [if_neg hc] at h
      rcases List.mem_cons.mp h with h | h
      · exact Or.inr (by simp [h])
      · rcases ih h with h | h
        · exact Or.inl h
        · exact Or.inr (by simp [h])

theorem pairwise_insertTask (t : Task) (l : List Task)
    (h : List.Pairwise (fun a b => keyLE (sortKey a) (sortKey b) = true) l) :
    List.Pairwise (fun a b => keyLE (sortKey a) (sortKey b) = true) (insertTask t l) := by
  induction l with
  | nil => simp [insertTask]
  | cons u us ih =>
    rcases List.pairwise_cons.mp h with ⟨hu, hus⟩
    rw [insertTask]
    by_cases hc : keyLE (sortKey t) (sortKey u) = true
    · rw [if_pos hc]
      refine List.pairwise_cons.mpr ⟨?_, h⟩
      intro v hv
      rcases List.mem_cons.mp hv with rfl | hv2
      · exact hc
      · exact keyLE_trans _ _ _ hc (hu v hv2)
    · rw [if_neg hc]
      refine List.pairwise_cons.mpr ⟨?_, ih hus⟩
      intro v hv
      rcases mem_insertTask hv with rfl | hv2
      · exact keyLE_of_not _ _ hc
      · exact hu v hv2

theorem sortTasks_sorted (l : List Task) :
    List.Pairwise (fun a b => keyLE (sortKey a) (sortKey b) = true) (sortTasks l) := by
  induction l with
  | nil => simp [sortTasks]
  | cons t ts ih => exact pairwise_insertTask t (sortTasks ts) ih

theorem filter_insertTask (t : Task) (l : List Task) (k : Bool × Int) :
    (insertTask t l).filter (fun u => decide (sortKey u = k)) =
      if sortKey t = k then t :: l.filter (fun u => decide (sortKey u = k))
      else l.filter (fun u => decide (sortKey u = k)) := by
  induction l with
  | nil => by_cases ht : sortKey t = k <;> simp [insertTask, ht]
  | cons u us ih =>
    rw [insertTask]
    by_cases hc : keyLE (sortKey t) (sortKey u) = true
    · rw [if_pos hc]
      by_cases ht : sortKey t = k <;> simp [List.filter_cons, ht]
    · rw [if_neg hc]
      by_cases ht : sortKey t = k
      · have hu : ¬ sortKey u = k := by
          intro e
          exact hc (by rw [e, ← ht]; exact keyLE_refl _)
        simp [List.filter_cons, hu, ih, ht]
      · by_cases hu : sortKey u = k <;> simp [List.filter_cons, hu, ih, ht]

theorem filter_sortTasks (l : List Task) (k : Bool × Int) :
    (sortTasks l).filter (fun u => decide (sortKey u = k)) =
      l.filter (fun u => decide (sortKey u = k)) := by
  induction l with
  | nil => rfl
  | cons t ts ih =>
    rw [sortTasks, filter_insertTask]
    by_cases ht : sortKey t = k <;> simp [List.filter_cons, ht, ih]

theorem findById_eq_none (ts : List Task) (i : Int) :
    findById ts i = none ↔ ∀ t ∈ ts, t.id ≠ i := by
  induction ts with
  | nil => simp [findById]
  | cons t ts ih => by_cases h : t.id = i <;> simp [findById, h, ih]

theorem findById_isSome (ts : List Task) (i : Int) (h : ∃ t ∈ ts, t.id = i) :
    ∃ u, findById ts i = some u := by
  cases hf : findById ts i with
  | some u => exact ⟨u, rfl⟩
  | none =>
    obtain ⟨t, ht, hid⟩ := h
    exact absurd hid ((findById_eq_none ts i).mp hf t ht)

theorem findById_markFirst (ts : List Task) (i : Int) (t : Task)
    (h : findById ts i = some t) :
    findById (markFirst ts i) i = some { t with completed := true } := by
  induction ts with
  | nil => simp [findById] at h
  | cons u us ih =>
    by_cases hu : u.id = i
    · rw [findById, if_pos hu] at h
      obtain rfl := Option.some.inj h
      rw [markFirst, if_pos hu, findById, if_pos hu]
    · rw [findById, if_neg hu] at h
      rw [markFirst, if_neg hu, findById, if_neg hu]
      exact ih h

theorem markFirst_map_id (ts : List Task) (i : Int) :
    (markFirst ts i).map (fun t => t.id) = ts.map (fun t => t.id) := by
  induction ts with
  | nil => rfl
  | cons u us ih => by_cases hu : u.id = i <;> simp [markFirst, hu, ih]

theorem foldl_max_le_init (a : Int) (l : List Int) : a ≤ l.foldl max a := by
  induction l generalizing a with
  | nil => simp
  | cons b l ih => exact le_trans (le_max_left a b) (ih (max a b))

theorem le_foldl_max (y : Int) (l : List Int) : ∀ a : Int, y ∈ l → y ≤ l.foldl max a := by
  induction l with
  | nil => intro a h; cases h
  | cons b l ih =>
    intro a h
    rcases List.mem_cons.mp h with rfl | h2
    · exact le_trans (le_max_right a y) (foldl_max_le_init _ _)
    · exact ih (max a b) h2

theorem le_pyMax (y : Int) (l : List Int) (h : y ∈ l) : y ≤ pyMax l := by
  cases l with
  | nil => cases h
  | cons x xs =>
    rcases List.mem_cons.mp h with rfl | h2
    · exact foldl_max_le_init _ _
    · exact le_foldl_max y xs x h2

theorem mark_eq_of_none (m : TaskManager) (i : Int)
    (hf : findById m.tasks i = none) :
    m.mark_task_completed i = (m, none, false) := by
  unfold TaskManager.mark_task_completed TaskManager.get_task_by_id
  rw [hf]

theorem mark_eq_of_some (m : TaskManager) (i : Int) (u : Task)
    (hf : findById m.tasks i = some u) :
    m.mark_task_completed i =
      ({ m with tasks := markFirst m.tasks i },
        some (save_tasks (markFirst m.tasks i)), true) := by
  unfold TaskManager.mark_task_completed TaskManager.get_task_by_id
  rw [hf]

theorem reachable_ids_lt (m : TaskManager) (h : Reachable m) :
    ∀ t ∈ m.tasks, t.id < m.next_id := by
  induction h with
  | init file m hinit =>
    intro t ht
    cases hload : load_tasks file with
    | error e =>
      unfold TaskManager.init at hinit
      rw [hload] at hinit
      exact Except.noConfusion hinit
    | ok ts =>
      unfold TaskManager.init at hinit
      rw [hload] at hinit
      have he := Except.ok.inj hinit
      subst he
      by_cases hts : ts = []
      · subst hts; cases ht
      · have ht2 : t ∈ ts := ht
        show t.id < if ts = [] then 1 else pyMax (ts.map (fun u => u.id) ++ [0]) + 1
        rw [if_neg hts]
        have h1 : t.id ∈ ts.map (fun u => u.id) ++ [0] :=
          List.mem_append_left _ (List.mem_map_of_mem _ ht2)
        have h2 := le_pyMax _ _ h1
        omega
  | add m d dd p hm ih =>
    intro t ht
    have ht2 : t ∈ m.tasks ++ [mkTask m.next_id d dd false p] := ht
    show t.id < m.next_id + 1
    rcases List.mem_append.mp ht2 with h | h
    · have := ih t h; omega
    · rw [List.mem_singleton] at h
      subst h
      show m.next_id < m.next_id + 1
      omega
  | mark m i hm ih =>
    intro t ht
    rcases hf : findById m.tasks i with _ | u
    · rw [mark_eq_of_none m i hf] at ht ⊢
      exact ih t ht
    · rw [mark_eq_of_some m i u hf] at ht ⊢
      have ht2 : t ∈ markFirst m.tasks i := ht
      show t.id < m.next_id
      have h1 : t.id ∈ (markFirst m.tasks i).map (fun u => u.id) :=
        List.mem_map_of_mem _ ht2
      rw [markFirst_map_id] at h1
      obtain ⟨u2, hu2, hid⟩ := List.mem_map.mp h1
      have := ih u2 hu2
      omega

theorem reachableU_reachable (m : TaskManager) (h : ReachableU m) : Reachable m := by
  induction h with
  | init file m hinit hpw => exact Reachable.init file m hinit
  | add m d dd p hm ih => exact Reachable.add m d dd p ih
  | mark m i hm ih => exact Reachable.mark m i ih

theorem reachableU_pairwise (m : TaskManager) (h : ReachableU m) :
    List.Pairwise (fun a b : Task => a.id ≠ b.id) m.tasks := by
  induction h with
  | init file m hinit hpw => exact hpw
  | add m d dd p hm ih =>
    have hlt := reachable_ids_lt m (reachableU_reachable m hm)
    show List.Pairwise (fun a b : Task => a.id ≠ b.id)
      (m.tasks ++ [mkTask m.next_id d dd false p])
    refine List.pairwise_append.mpr ⟨ih, by simp, ?_⟩
    intro a ha b hb
    rw [List.mem_singleton] at hb
    subst hb
    have h1 := hlt a ha
    show a.id ≠ m.next_id
    omega
  | mark m i hm ih =>
    rcases hf : findById m.tasks i with _ | u
    · rw [mark_eq_of_none m i hf]
      exact ih
    · rw [mark_eq_of_some m i u hf]
      show List.Pairwise (fun a b : Task => a.id ≠ b.id) (markFirst m.tasks i)
      have h1 : List.Pairwise (fun x y : Int => x ≠ y) (m.tasks.map (fun t => t.id)) :=
        List.pairwise_map.mpr ih
      rw [← markFirst_map_id m.tasks i] at h1
      exact List.pairwise_map.mp h1

theorem loadLines_ok (ls : List Str) (h : ∀ l ∈ ls, ∃ o, loadLine l = Except.ok o) :
    loadLines ls = Except.ok (ls.filterMap lineTask) := by
  induction ls with
  | nil => rfl
  | cons l ls ih =>
    obtain ⟨o, ho⟩ := h l (by simp)
    have ih2 := ih (fun x hx => h x (by simp [hx]))
    cases o with
    | none =>
      have e2 : lineTask l = none := by rw [lineTask, ho]
      rw [loadLines, ho, ih2]
      simp [List.filterMap_cons, e2]
    | some t =>
      have e2 : lineTask l = some t := by rw [lineTask, ho]
      rw [loadLines, ho, ih2]
      simp [List.filterMap_cons, e2]

/-!  The claims. -/

/-- Claim C9: if the backing file does not exist, load_tasks returns the
empty sequence without raising, and a TaskManager constructed over a
missing file starts with an empty collection and next_id equal to one. -/
theorem c9_missing_file :
    load_tasks none = Except.ok [] ∧
    TaskManager.init none = Except.ok { tasks := [], next_id := 1 } :=
  ⟨rfl, rfl⟩

/-- Claim C10 (amended): add_task with priority passed as None constructs
the Task with priority medium, appends it, persists the full collection,
and then raises, so it does not return the new task; the exception is an
AttributeError from calling upper() on None, not a TypeError. -/
theorem c10_add_task_none_raises (m : TaskManager) (d : Str) (dd : Option Str) :
    (m.add_task d dd none).1.tasks = m.tasks ++ [mkTask m.next_id d dd false none] ∧
    (mkTask m.next_id d dd false none).priority = ("medium".data) ∧
    (m.add_task d dd none).2.1 = save_tasks (m.tasks ++ [mkTask m.next_id d dd false none]) ∧
    (m.add_task d dd none).2.2 = Except.error ("AttributeError") :=
  ⟨rfl, rfl, rfl, rfl⟩

/-- Claim C10, counterexample to the claimed exception class: the failing
add_task raises AttributeError (None has no attribute upper), not
TypeError as the claim states. -/
theorem c10_counterexample :
    ((TaskManager.mk [] 1).add_task (("x").data) none none).2.2 =
      Except.error ("AttributeError") ∧
    ((TaskManager.mk [] 1).add_task (("x").data) none none).2.2 ≠
      Except.error ("TypeError") := by
  refine ⟨rfl, ?_⟩
  intro h
  have h2 : ("AttributeError" : String) = "TypeError" := Except.error.inj h
  exact absurd h2 (by decide)

/-- Claim C6: a priority input whose lowercase form is low, medium or high
is stored in that lowercase form; any other input, including an absent or
empty one, is stored as medium; the stored priority is always a member of
the valid set. -/
theorem c6_priority_normalisation (i : Int) (d : Str) (dd : Option Str)
    (c : Bool) (p : Option Str) :
    (mkTask i d dd c p).priority =
      (match p with
       | none => ("medium".data)
       | some s => if pyLower s ∈ valid_priorities then pyLower s else ("medium".data)) ∧
    (mkTask i d dd c p).priority ∈ valid_priorities := by
  cases p with
  | none =>
    refine ⟨rfl, ?_⟩
    show ("medium".data) ∈ valid_priorities
    decide
  | some s =>
    by_cases hs : s = []
    · subst hs
      refine ⟨rfl, ?_⟩
      show ("medium".data) ∈ valid_priorities
      decide
    · have hp : (mkTask i d dd c (some s)).priority =
        if pyLower s ∈ valid_priorities then pyLower s else ("medium".data) := by
        simp only [mkTask]
        rw [if_neg hs]
      refine ⟨by rw [hp], ?_⟩
      rw [hp]
      by_cases hv : pyLower s ∈ valid_priorities
      · rw [if_pos hv]; exact hv
      · rw [if_neg hv]; decide

/-- Claim C5: in list_tasks display order, any task A shown before a task
B either is incomplete while B is completed, or shares the completion
status of B and has a priority weight at least as large; tasks comparing
equal under the sort key keep their original collection order. -/
theorem c5_list_tasks_order (m : TaskManager) :
    List.Pairwise
      (fun a b => (a.completed = false ∧ b.completed = true) ∨
        (a.completed = b.completed ∧ priority_order b.priority ≤ priority_order a.priority))
      m.list_tasks ∧
    (∀ k : Bool × Int,
      m.list_tasks.filter (fun u => decide (sortKey u = k)) =
        m.tasks.filter (fun u => decide (sortKey u = k))) := by
  constructor
  · refine (sortTasks_sorted m.tasks).imp ?_
    intro a b hab
    cases ha : a.completed <;> cases hb : b.completed <;>
      simp [keyLE, sortKey, ha, hb] at hab ⊢ <;> omega
  · intro k
    exact filter_sortTasks m.tasks k

/-- Claim C4: mark_task_completed on an id present in the collection
marks the found task completed, persists the collection and returns true;
on an absent id it returns false without touching the collection (the
operation is a total function in the model: no exception). -/
theorem c4_mark_task_completed (m : TaskManager) (i : Int) :
    ((∃ t ∈ m.tasks, t.id = i) →
      (m.mark_task_completed i).2.2 = true ∧
      (m.mark_task_completed i).1.tasks = markFirst m.tasks i ∧
      (m.mark_task_completed i).2.1 = some (save_tasks (markFirst m.tasks i)) ∧
      (∀ t, m.get_task_by_id i = some t →
        (m.mark_task_completed i).1.get_task_by_id i = some { t with completed := true }) ∧
      (m.mark_task_completed i).1.next_id = m.next_id) ∧
    ((∀ t ∈ m.tasks, t.id ≠ i) → m.mark_task_completed i = (m, none, false)) := by
  constructor
  · intro hex
    obtain ⟨u, hu⟩ := findById_isSome m.tasks i hex
    rw [mark_eq_of_some m i u hu]
    refine ⟨rfl, rfl, rfl, ?_, rfl⟩
    intro t ht
    have ht2 : findById m.tasks i = some t := ht
    show findById (markFirst m.tasks i) i = some { t with completed := true }
    exact findById_markFirst m.tasks i t ht2
  · intro hall
    exact mark_eq_of_none m i ((findById_eq_none m.tasks i).mpr hall)

/-- Claim C4 witness: on a one-task collection, marking id one returns
true and completes the task; marking id five leaves the state alone and
returns false. -/
theorem c4_mark_task_completed_witness :
    ((TaskManager.mk [Task.mk 1 ("a".data) none false ("medium".data)]
        2).mark_task_completed 1).2.2 = true ∧
    ((TaskManager.mk [Task.mk 1 ("a".data) none false ("medium".data)]
        2).mark_task_completed 1).1.get_task_by_id 1 =
      some (Task.mk 1 ("a".data) none true ("medium".data)) ∧
    ((TaskManager.mk [Task.mk 1 ("a".data) none false ("medium".data)]
        2).mark_task_completed 5) =
      (TaskManager.mk [Task.mk 1 ("a".data) none false ("medium".data)] 2,
        none, false) := by
  have h1 := (c4_mark_task_completed
    (TaskManager.mk [Task.mk 1 ("a".data) none false ("medium".data)] 2) 1).1
    ⟨Task.mk 1 ("a".data) none false ("medium".data), by simp, rfl⟩
  refine ⟨h1.1, h1.2.2.2.1 _ rfl, ?_⟩
  refine (c4_mark_task_completed
    (TaskManager.mk [Task.mk 1 ("a".data) none false ("medium".data)] 2) 5).2 ?_
  intro t ht
  rw [List.mem_singleton] at ht
  subst ht
  decide

/-- Claim C3 (amended): add_task with a present (non-None) priority
appends one task, built with id equal to the previous next_id, completed
false and the given description and due date; next_id is incremented, the
full collection is persisted, and the new task is returned.  When the
priority argument is None everything up to the persist still happens but
the call raises instead of returning. -/
theorem c3_add_task_amended (m : TaskManager) (d : Str) (dd : Option Str)
    (p : Option Str) (hp : p ≠ none) :
    (m.add_task d dd p).1.tasks = m.tasks ++ [mkTask m.next_id d dd false p] ∧
    (m.add_task d dd p).1.tasks.length = m.tasks.length + 1 ∧
    (mkTask m.next_id d dd false p).id = m.next_id ∧
    (mkTask m.next_id d dd false p).completed = false ∧
    (mkTask m.next_id d dd false p).description = d ∧
    (mkTask m.next_id d dd false p).due_date = dd ∧
    (m.add_task d dd p).1.next_id = m.next_id + 1 ∧
    (m.add_task d dd p).2.1 = save_tasks (m.tasks ++ [mkTask m.next_id d dd false p]) ∧
    (m.add_task d dd p).2.2 = Except.ok (mkTask m.next_id d dd false p) := by
  rcases p with _ | q
  · exact absurd rfl hp
  · refine ⟨rfl, ?_, rfl, rfl, rfl, rfl, rfl, rfl, rfl⟩
    show (m.tasks ++ [mkTask m.next_id d dd false (some q)]).length = m.tasks.length + 1
    simp

/-- Claim C3, counterexample to the unconditional return: a call with
priority None mutates and persists but produces an exception, not the
new task. -/
theorem c3_counterexample :
    ((TaskManager.mk [] 1).add_task (("x").data) none none).2.2 =
      Except.error ("AttributeError") ∧
    ((TaskManager.mk [] 1).add_task (("x").data) none none).2.2 ≠
      Except.ok (mkTask 1 (("x").data) none false none) := by
  refine ⟨rfl, ?_⟩
  intro h
  exact Except.noConfusion h

/-- Claim C3 witness: a concrete add_task call with a present priority. -/
theorem c3_add_task_witness :
    ((TaskManager.mk [] 1).add_task (("a").data) none (some ("low".data))).1.tasks =
      [] ++ [mkTask 1 (("a").data) none false (some ("low".data))] ∧
    ((TaskManager.mk [] 1).add_task (("a").data) none (some ("low".data))).1.tasks.length =
      List.length ([] : List Task) + 1 ∧
    (mkTask 1 (("a").data) none false (some ("low".data))).id = 1 ∧
    (mkTask 1 (("a").data) none false (some ("low".data))).completed = false ∧
    (mkTask 1 (("a").data) none false (some ("low".data))).description = ("a").data ∧
    (mkTask 1 (("a").data) none false (some ("low".data))).due_date = none ∧
    ((TaskManager.mk [] 1).add_task (("a").data) none (some ("low".data))).1.next_id = 1 + 1 ∧
    ((TaskManager.mk [] 1).add_task (("a").data) none (some ("low".data))).2.1 =
      save_tasks ([] ++ [mkTask 1 (("a").data) none false (some ("low".data))]) ∧
    ((TaskManager.mk [] 1).add_task (("a").data) none (some ("low".data))).2.2 =
      Except.ok (mkTask 1 (("a").data) none false (some ("low".data))) :=
  c3_add_task_amended (TaskManager.mk [] 1) (("a").data) none (some ("low".data))
    (by simp)

/-- Claim C2 (amended): in every reachable state, next_id is strictly
greater than every task id; and in every reachable state whose
construction loaded pairwise-distinct ids, the ids stay pairwise
distinct.  Construction from an arbitrary backing store alone does not
guarantee distinctness, as the counterexample shows. -/
theorem c2_id_invariant (m : TaskManager) :
    (Reachable m → ∀ t ∈ m.tasks, t.id < m.next_id) ∧
    (ReachableU m → List.Pairwise (fun a b : Task => a.id ≠ b.id) m.tasks) :=
  ⟨reachable_ids_lt m, reachableU_pairwise m⟩

/-- Claim C2, counterexample to unconditional id uniqueness: a backing
store holding two records with id one loads into a manager whose task
ids are not pairwise distinct. -/
theorem c2_counterexample :
    TaskManager.init (some (("1,a,None,False\n1,b,None,False\n").data)) =
      Except.ok (TaskManager.mk
        [Task.mk 1 ("a".data) none false ("medium".data),
         Task.mk 1 ("b".data) none false ("medium".data)] 2) ∧
    ¬ List.Pairwise (fun a b : Task => a.id ≠ b.id)
      [Task.mk 1 ("a".data) none false ("medium".data),
       Task.mk 1 ("b".data) none false ("medium".data)] := by
  refine ⟨rfl, ?_⟩
  intro h
  rcases List.pairwise_cons.mp h with ⟨h1, _⟩
  exact h1 (Task.mk 1 ("b".data) none false ("medium".data)) (by simp) rfl

/-- Claim C2 witness: the invariant evaluated on the reachable state
obtained by one add_task on a fresh manager. -/
theorem c2_id_invariant_witness :
    (mkTask 1 (("x").data) none false (some ("medium".data))).id <
      ((TaskManager.mk [] 1).add_task (("x").data) none (some ("medium".data))).1.next_id ∧
    List.Pairwise (fun a b : Task => a.id ≠ b.id)
      ((TaskManager.mk [] 1).add_task (("x").data) none (some ("medium".data))).1.tasks := by
  have hr : Reachable ((TaskManager.mk [] 1).add_task (("x").data) none
      (some ("medium".data))).1 :=
    Reachable.add _ _ _ _ (Reachable.init none (TaskManager.mk [] 1) rfl)
  have hru : ReachableU ((TaskManager.mk [] 1).add_task (("x").data) none
      (some ("medium".data))).1 :=
    ReachableU.add _ _ _ _
      (ReachableU.init none (TaskManager.mk [] 1) rfl List.Pairwise.nil)
  refine ⟨(c2_id_invariant _).1 hr _ ?_, (c2_id_invariant _).2 hru⟩
  show mkTask 1 (("x").data) none false (some ("medium".data)) ∈
    [] ++ [mkTask 1 (("x").data) none false (some ("medium".data))]
  simp

/-- Claim C7: a stripped line splitting into exactly four comma-separated
fields whose first field parses as an integer loads into a task whose
priority defaults to medium; in particular the spec example line yields
id five, description Buy milk, absent due date, not completed, priority
medium. -/
theorem c7_four_field_line :
    (∀ (line a b c d : Str) (n : Int),
      splitOnChar ',' (pyStrip line) = [a, b, c, d] →
      pyInt a = some n →
      loadLine line = Except.ok (some (mkTask n b
        (if c = ("None".data) then none else some c)
        (decide (d = ("True".data))) (some ("medium".data)))) ∧
      (mkTask n b (if c = ("None".data) then none else some c)
        (decide (d = ("True".data))) (some ("medium".data))).priority = ("medium".data)) ∧
    load_tasks (some (("5,Buy milk,None,False").data)) =
      Except.ok [Task.mk 5 ("Buy milk".data) none false ("medium".data)] := by
  refine ⟨?_, rfl⟩
  intro line a b c d n hs hint
  refine ⟨?_, rfl⟩
  rw [loadLine_four line a b c d hs, hint]

/-- Claim C7 witness: the spec example line evaluated concretely. -/
theorem c7_four_field_line_witness :
    loadLine (("5,Buy milk,None,False").data) =
      Except.ok (some (mkTask 5 (("Buy milk").data)
        (if ("None").data = ("None".data) then none else some (("None").data))
        (decide ((("False").data) = ("True".data))) (some ("medium".data)))) ∧
    (mkTask 5 (("Buy milk").data)
      (if ("None").data = ("None".data) then none else some (("None").data))
      (decide ((("False").data) = ("True".data))) (some ("medium".data))).priority =
      ("medium".data) :=
  c7_four_field_line.1 (("5,Buy milk,None,False").data) (("5").data)
    (("Buy milk").data) (("None").data) (("False").data) 5 (by rfl) (by rfl)

/-- Claim C8 (amended): lines with fewer than four comma-separated fields
are skipped without error; lines are delimited per text-mode universal
newlines (line feed, carriage return and the pair both terminate a
line), and provided every remaining line parses (its first field is an
integer), load_tasks returns the tasks of the remaining lines in file
order.  A non-integer first field on a line with at least four fields
aborts the whole load with a ValueError, as the counterexample shows. -/
theorem c8_skip_short_lines_amended :
    (∀ line : Str, (splitOnChar ',' (pyStrip line)).length < 4 →
      loadLine line = Except.ok none) ∧
    (∀ content : Str,
      (∀ l ∈ splitOnChar '\n' (univNewlines content), ∃ o, loadLine l = Except.ok o) →
      load_tasks (some content) =
        Except.ok ((splitOnChar '\n' (univNewlines content)).filterMap lineTask)) := by
  constructor
  · intro line hlen
    rcases hs : splitOnChar ',' (pyStrip line) with _ | ⟨a, _ | ⟨b, _ | ⟨c, _ | ⟨d, rest⟩⟩⟩⟩
    · unfold loadLine; rw [hs]
    · unfold loadLine; rw [hs]
    · unfold loadLine; rw [hs]
    · unfold loadLine; rw [hs]
    · exfalso
      rw [hs] at hlen
      simp at hlen
      omega
  · intro content h
    exact loadLines_ok _ h

/-- Claim C8, counterexample to the unconditional return: a single line
with four fields and a non-integer first field makes load_tasks raise
a ValueError instead of returning a task list. -/
theorem c8_counterexample :
    load_tasks (some (("a,b,c,d").data)) = Except.error ("ValueError") := rfl

/-- Claim C8 witness: a one-field line is skipped, and a file holding a
skipped line plus one good line loads to just the good task. -/
theorem c8_skip_short_lines_witness :
    loadLine (("abc").data) = Except.ok none ∧
    load_tasks (some (("abc\n5,Buy milk,None,False").data)) =
      Except.ok [Task.mk 5 ("Buy milk".data) none false ("medium".data)] := by
  refine ⟨c8_skip_short_lines_amended.1 (("abc").data) (by decide), ?_⟩
  have h := c8_skip_short_lines_amended.2 (("abc\n5,Buy milk,None,False").data) ?_
  · exact h
  · intro l hl
    have hlines : splitOnChar '\n' (univNewlines (("abc\n5,Buy milk,None,False").data)) =
        [("abc").data, ("5,Buy milk,None,False").data] := rfl
    rw [hlines] at hl
    rcases List.mem_cons.mp hl with rfl | hl2
    · exact ⟨none, rfl⟩
    · rw [List.mem_singleton] at hl2
      subst hl2
      exact ⟨some (Task.mk 5 ("Buy milk".data) none false ("medium".data)), rfl⟩

/-- Claim C1 (amended): saving any task list whose descriptions and
present due dates contain no comma, no line feed and no carriage
return, whose present due dates are not the literal text None, whose
ids are positive, whose descriptions are nonempty and whose priorities
are valid, then loading the same file, reproduces exactly the same task
list.  Without the comma proviso the round trip fails, as the
counterexample shows; a line feed or carriage return in a field breaks
the line structure on reload (text-mode reading terminates lines at
either), so both are excluded as well. -/
theorem c1_roundtrip_amended (ts : List Task)
    (h : ∀ t ∈ ts, (1:Int) ≤ t.id ∧ t.description ≠ [] ∧
      ',' ∉ t.description ∧ '\n' ∉ t.description ∧ '\r' ∉ t.description ∧
      (match t.due_date with
       | none => True
       | some d => ',' ∉ d ∧ '\n' ∉ d ∧ '\r' ∉ d ∧ d ≠ ("None".data)) ∧
      t.priority ∈ valid_priorities) :
    load_tasks (some (save_tasks ts)) = Except.ok ts := by
  have hnl : ∀ t ∈ ts, '\n' ∉ taskLine t := by
    intro t ht
    obtain ⟨h1, h2, h3, h4, h4r, h5, h6⟩ := h t ht
    refine taskLine_no_newline t h1 h4 ?_ h6
    intro d hd
    rw [hd] at h5
    exact h5.2.1
  have hcr : '\r' ∉ save_tasks ts := by
    refine save_tasks_no_cr ts ?_
    intro t ht
    obtain ⟨h1, h2, h3, h4, h4r, h5, h6⟩ := h t ht
    refine taskLine_no_cr t h1 h4r ?_ h6
    intro d hd
    rw [hd] at h5
    exact h5.2.2.1
  show loadLines (splitOnChar '\n' (univNewlines (save_tasks ts))) = Except.ok ts
  rw [univNewlines_no_cr (save_tasks ts) hcr, splitLines_save ts hnl]
  refine loadLines_taskLines ts ?_
  intro t ht
  obtain ⟨h1, h2, h3, h4, h4r, h5, h6⟩ := h t ht
  refine ⟨h1, h3, ?_, h6⟩
  intro d hd
  rw [hd] at h5
  exact ⟨h5.1, h5.2.2.2⟩

/-- Claim C1, counterexample: a task whose description contains a comma
does not survive the round trip; the saved line splits into six fields
and the description, due date and priority are all misread. -/
theorem c1_counterexample :
    load_tasks (some (save_tasks
      [Task.mk 1 ("a,b".data) none false ("medium".data)])) =
      Except.ok [Task.mk 1 ("a".data) (some ("b".data)) false ("medium".data)] ∧
    Task.mk 1 ("a".data) (some ("b".data)) false ("medium".data) ≠
      Task.mk 1 ("a,b".data) none false ("medium".data) :=
  ⟨rfl, by decide⟩

/-- Claim C1 witness: a concrete two-task round trip under the amended
provisos. -/
theorem c1_roundtrip_witness :
    load_tasks (some (save_tasks
      [Task.mk 1 ("Buy milk".data) none false ("high".data),
       Task.mk 2 ("Clean desk".data) (some ("2024-01-01".data)) true ("low".data)])) =
      Except.ok
      [Task.mk 1 ("Buy milk".data) none false ("high".data),
       Task.mk 2 ("Clean desk".data) (some ("2024-01-01".data)) true ("low".data)] := by
  apply c1_roundtrip_amended
  intro t ht
  rcases List.mem_cons.mp ht with rfl | ht2
  · exact ⟨by decide, by decide, by decide, by decide, by decide, trivial, by decide⟩
  · rw [List.mem_singleton] at ht2
    subst ht2
    exact ⟨by decide, by decide, by decide, by decide, by decide,
      ⟨by decide, by decide, by decide, by decide⟩, by decide⟩

end SrpTasks
